import Mathlib

/-!
Shallow embedding of the streaming codec core of this repository: the
UTF-32LE/BE encoder and decoder, the UTF-32 auto codec with its endianness
detector (src/encodings/utf32.js), and the internal codecs of the unnamed
internal-codecs source file (CESU-8 encoder/decoder, streaming base64
encoder).

Byte chunks are `List Nat` of octets (each < 256, as `Buffer` guarantees);
text is `List Nat` of UTF-16 code units (`charCodeAt` values, each
< 0x10000); base64 text is `List Char`.  The JS bitwise operations are
rendered arithmetically where the operands make them coincide: for byte
values `a | (b << 8)` is `a + b * 256`, `x & 0x3f` is `x % 64`, `x >>> 6`
is `x / 64`, and so on; each such rendering is noted at the definition.
-/

/-- The four bytes written by `writeUInt32LE` / `writeUInt32BE` for a value
in 0..2^32-1, least significant byte first for LE (utf32.js line 42). -/
def bytes32 (isLE : Bool) (value : Nat) : List Nat :=
  if isLE then [value % 256, value / 256 % 256, value / 65536 % 256, value / 16777216 % 256]
  else [value / 16777216 % 256, value / 65536 % 256, value / 256 % 256, value % 256]

theorem bytes32_length (isLE : Bool) (value : Nat) : (bytes32 isLE value).length = 4 := by
  cases isLE <;> simp [bytes32]

namespace Utf32Encoder

/-- One iteration of the loop in `Utf32Encoder.write` (utf32.js lines 45-80):
given the pending `highSurrogate` (0 = none) and the current code unit,
the bytes emitted and the new pending value.  The combined code point
`((H - 0xD800) << 10) | (c - 0xDC00)) + 0x10000` is written with `* 1024`
and `+` since `c - 0xDC00 < 1024`. -/
def step (isLE : Bool) (highSurrogate code : Nat) : List Nat × Nat :=
  if highSurrogate ≠ 0 then
    if (0xd800 ≤ code ∧ code < 0xdc00) ∨ ¬(0xdc00 ≤ code ∧ code < 0xe000) then
      if 0xd800 ≤ code ∧ code < 0xdc00 then (bytes32 isLE highSurrogate, code)
      else (bytes32 isLE highSurrogate ++ bytes32 isLE code, 0)
    else
      (bytes32 isLE ((highSurrogate - 0xd800) * 1024 + (code - 0xdc00) + 0x10000), 0)
  else
    if 0xd800 ≤ code ∧ code < 0xdc00 then ([], code)
    else (bytes32 isLE code, 0)

/-- `Utf32Encoder.write` (utf32.js lines 39-85): the bytes produced for the
given code units and the pending high surrogate left behind. -/
def write (isLE : Bool) : Nat → List Nat → List Nat × Nat
  | highSurrogate, [] => ([], highSurrogate)
  | highSurrogate, code :: rest =>
    ((step isLE highSurrogate code).1 ++
        (write isLE (step isLE highSurrogate code).2 rest).1,
     (write isLE (step isLE highSurrogate code).2 rest).2)

/-- `Utf32Encoder.end` (utf32.js lines 121-135): a leftover high surrogate
is emitted as a stand-alone 4-byte code point and cleared. -/
def «end» (isLE : Bool) (highSurrogate : Nat) : List Nat × Nat :=
  if highSurrogate ≠ 0 then (bytes32 isLE highSurrogate, 0) else ([], 0)

/-- `Utf32Encoder.hasState` (utf32.js lines 35-37). -/
def hasState (highSurrogate : Nat) : Bool := highSurrogate != 0

/-- The loop of `Utf32Encoder.byteLength` (utf32.js lines 87-119) with the
running `currentHighSurrogate`; the `[]` case folds in the final
`if (currentHighSurrogate) byteLength += 4`. -/
def byteLengthAux : Nat → List Nat → Nat
  | currentHighSurrogate, [] => if currentHighSurrogate ≠ 0 then 4 else 0
  | currentHighSurrogate, code :: rest =>
    if currentHighSurrogate ≠ 0 then
      if (0xd800 ≤ code ∧ code < 0xdc00) ∨ ¬(0xdc00 ≤ code ∧ code < 0xe000) then
        if 0xd800 ≤ code ∧ code < 0xdc00 then 4 + byteLengthAux code rest
        else 4 + (4 + byteLengthAux 0 rest)
      else 4 + byteLengthAux 0 rest
    else
      if 0xd800 ≤ code ∧ code < 0xdc00 then byteLengthAux code rest
      else 4 + byteLengthAux 0 rest

/-- `Utf32Encoder.byteLength` (utf32.js lines 87-119). -/
def byteLength (str : List Nat) : Nat := byteLengthAux 0 str

theorem byteLengthAux_eq_write_add_end (isLE : Bool) :
    ∀ (str : List Nat) (cur : Nat),
      byteLengthAux cur str =
        (write isLE cur str).1.length +
          («end» isLE (write isLE cur str).2).1.length
  | [], cur => by
    by_cases h : cur = 0 <;>
      simp [byteLengthAux, write, «end», h, bytes32_length]
  | code :: rest, cur => by
    have ih0 := byteLengthAux_eq_write_add_end isLE rest 0
    have ihc := byteLengthAux_eq_write_add_end isLE rest code
    simp only [byteLengthAux, write, step]
    split_ifs <;>
      simp_all [List.length_append, bytes32_length] <;> omega

end Utf32Encoder

/-- C8: for the UTF-32LE/BE encoder on a fresh session and every input
string (any list of UTF-16 code units, lone or unpaired surrogates
included), `byteLength` equals the number of bytes produced by `write`
followed by `end`. -/
theorem c8_utf32_byteLength_eq_output (isLE : Bool) (str : List Nat) :
    Utf32Encoder.byteLength str =
      (Utf32Encoder.write isLE 0 str).1.length +
        (Utf32Encoder.«end» isLE (Utf32Encoder.write isLE 0 str).2).1.length :=
  Utf32Encoder.byteLengthAux_eq_write_add_end isLE str 0

/-- C4: for the UTF-32LE/BE encoder, with a pending high surrogate `H`:
a code unit that is a high surrogate or not a low surrogate makes the
encoder emit `H` unchanged as one 4-byte code point and then process the
unit exactly as it would with no pending state; a low surrogate yields the
combined code point `(((H - 0xD800) << 10) | (c - 0xDC00)) + 0x10000`;
and `end()` emits the pending `H` as a lone 4-byte code point and clears
the pending state. -/
theorem c4_utf32_encoder_pending_surrogate (isLE : Bool) (H c c2 : Nat)
    (hH : 0xd800 ≤ H ∧ H < 0xdc00)
    (hc : (0xd800 ≤ c ∧ c < 0xdc00) ∨ ¬(0xdc00 ≤ c ∧ c < 0xe000))
    (hc2 : 0xdc00 ≤ c2 ∧ c2 < 0xe000) :
    Utf32Encoder.step isLE H c =
      (bytes32 isLE H ++ (Utf32Encoder.step isLE 0 c).1,
        (Utf32Encoder.step isLE 0 c).2) ∧
    Utf32Encoder.step isLE H c2 =
      (bytes32 isLE ((H - 0xd800) * 1024 + (c2 - 0xdc00) + 0x10000), 0) ∧
    Utf32Encoder.«end» isLE H = (bytes32 isLE H, 0) ∧
    (bytes32 isLE H).length = 4 := by
  have hne : H ≠ 0 := by omega
  refine ⟨?_, ?_, ?_, bytes32_length isLE H⟩
  · simp only [Utf32Encoder.step, if_pos hne, if_pos hc]
    rcases hc with hhi | hnl
    · rw [if_pos hhi, if_neg (by omega), if_pos hhi]
      simp
    · by_cases hhi : 0xd800 ≤ c ∧ c < 0xdc00
      · rw [if_pos hhi, if_neg (by omega), if_pos hhi]
        simp
      · rw [if_neg hhi, if_neg (by omega), if_neg hhi]
  · simp only [Utf32Encoder.step, if_pos hne]
    rw [if_neg (by omega)]
  · simp [Utf32Encoder.«end», hne]

/-- Signed 32-bit reinterpretation of a natural number, as JS bitwise
operators produce (`codepoint` "is a signed int32 and can be negative",
utf32.js lines 166, 189). -/
def toInt32 (u : Nat) : Int :=
  if u % 4294967296 < 2147483648 then ((u % 4294967296 : Nat) : Int)
  else ((u % 4294967296 : Nat) : Int) - 4294967296

/-- The code point read from four bytes (utf32.js lines 168-180 and
191-193): for byte values the ORs of the disjoint shifted ranges
`b0 | (b1 << 8) | (b2 << 16) | (b3 << 24)` equal the sum, reinterpreted
as a signed int32. -/
def cpOfBytes (isLE : Bool) (b0 b1 b2 b3 : Nat) : Int :=
  if isLE then toInt32 (b0 + b1 * 256 + b2 * 65536 + b3 * 16777216)
  else toInt32 (b3 + b2 * 256 + b1 * 65536 + b0 * 16777216)

/-- `_writeCodepoint` (utf32.js lines 211-235), as the UTF-16 code units
its byte writes produce when the buffer is read back as ucs2: an
out-of-range code point becomes `badChar`; a value ≥ 0x10000 becomes the
pair `0xD800 | (cp >> 10)`, `0xDC00 | (cp & 0x3FF)` (written with `/ 1024`,
`% 1024` and `+` on the nonnegative shifted value); each unit is stored as
two bytes, hence the `% 65536`. -/
def writeCodepointUnits (codepoint : Int) (badChar : Nat) : List Nat :=
  let cp : Int := if codepoint < 0 ∨ codepoint > 0x10ffff then (badChar : Int) else codepoint
  if cp ≥ 0x10000 then
    [(0xd800 + ((cp - 0x10000).toNat / 1024)) % 65536,
     (0xdc00 + ((cp - 0x10000).toNat % 1024)) % 65536]
  else
    [cp.toNat % 65536]

namespace Utf32Decoder

/-- The main loop of `Utf32Decoder.write` (utf32.js lines 188-196) together
with the trailing-bytes loop (lines 199-201): emitted code units and the
0..3 bytes left over for the overflow buffer. -/
def body (isLE : Bool) (badChar : Nat) : List Nat → List Nat × List Nat
  | b0 :: b1 :: b2 :: b3 :: rest =>
    (writeCodepointUnits (cpOfBytes isLE b0 b1 b2 b3) badChar ++
        (body isLE badChar rest).1,
     (body isLE badChar rest).2)
  | rest => ([], rest)

/-- `Utf32Decoder.write` (utf32.js lines 151-204): output code units and
the new overflow buffer.  The overflow-drain block (lines 162-185) is
modelled exactly as written: after pushing `k` input bytes the source
indexes the overflow array at `i = k`..`k+3`, and a JS out-of-bounds read
(`undefined`) behaves as 0 in the bitwise arithmetic — hence `getD _ 0`. -/
def write (isLE : Bool) (badChar : Nat) (overflow src : List Nat) :
    List Nat × List Nat :=
  if src.length = 0 then ([], overflow)
  else if 0 < overflow.length then
    let k := min (4 - overflow.length) src.length
    let ov2 := overflow ++ src.take k
    if ov2.length = 4 then
      (writeCodepointUnits
          (cpOfBytes isLE (ov2.getD k 0) (ov2.getD (k + 1) 0)
            (ov2.getD (k + 2) 0) (ov2.getD (k + 3) 0)) badChar ++
          (body isLE badChar (src.drop k)).1,
       (body isLE badChar (src.drop k)).2)
    else
      ((body isLE badChar (src.drop k)).1, ov2 ++ (body isLE badChar (src.drop k)).2)
  else
    body isLE badChar src

/-- `Utf32Decoder.end` (utf32.js lines 206-208): no output, overflow
cleared. -/
def «end» (_overflow : List Nat) : List Nat × List Nat := ([], [])

/-- `Utf32Decoder.hasState` (utf32.js lines 147-149). -/
def hasState (overflow : List Nat) : Bool := decide (overflow.length > 0)

end Utf32Decoder

mutual

/-- Well-formed UTF-16: every unit is a 16-bit value, a high surrogate is
immediately followed by a low surrogate, and no low surrogate appears
unpaired. -/
def wellFormedUtf16 : List Nat → Bool
  | [] => true
  | u :: rest =>
    if ¬ u < 0x10000 then false
    else if 0xdc00 ≤ u ∧ u < 0xe000 then false
    else if 0xd800 ≤ u ∧ u < 0xdc00 then wellFormedAfterHigh rest
    else wellFormedUtf16 rest

/-- After a high surrogate: the rest must start with a low surrogate and
continue well-formed. -/
def wellFormedAfterHigh : List Nat → Bool
  | [] => false
  | l :: rest => if 0xdc00 ≤ l ∧ l < 0xe000 then wellFormedUtf16 rest else false

end

/-- The signed 32-bit code points of the consecutive complete 4-byte groups
of a byte stream. -/
def groupCps (isLE : Bool) : List Nat → List Int
  | b0 :: b1 :: b2 :: b3 :: rest => cpOfBytes isLE b0 b1 b2 b3 :: groupCps isLE rest
  | _ => []

theorem wellFormedUtf16_wcu_append (cp : Int) (badChar : Nat) (rest : List Nat)
    (hb1 : badChar < 0x10000) (hb2 : ¬(0xd800 ≤ badChar ∧ badChar < 0xe000))
    (hcp : ¬((0xd800 : Int) ≤ cp ∧ cp < 0xe000)) :
    wellFormedUtf16 (writeCodepointUnits cp badChar ++ rest) = wellFormedUtf16 rest := by
  unfold writeCodepointUnits
  by_cases hv : cp < 0 ∨ cp > 0x10ffff
  · rw [if_pos hv]
    have hlt : ¬ ((badChar : Int) ≥ 0x10000) := by omega
    rw [if_neg hlt]
    have hmod : badChar % 65536 = badChar := Nat.mod_eq_of_lt (by omega)
    have h1 : ((badChar : Int)).toNat = badChar := Int.toNat_natCast badChar
    simp only [h1, hmod, List.cons_append, List.nil_append]
    rw [wellFormedUtf16]
    rw [if_neg (by omega), if_neg (by omega), if_neg (by omega)]
  · rw [if_neg hv]
    push_neg at hv
    by_cases hbig : cp ≥ 0x10000
    · rw [if_pos hbig]
      have hc : (cp - 0x10000).toNat ≤ 0xfffff := by omega
      have hdiv : (cp - 0x10000).toNat / 1024 ≤ 1023 :=
        le_trans (Nat.div_le_div_right hc) (by norm_num)
      have hmodlt : (cp - 0x10000).toNat % 1024 < 1024 := Nat.mod_lt _ (by norm_num)
      have hh : (0xd800 + ((cp - 0x10000).toNat / 1024)) % 65536 =
          0xd800 + ((cp - 0x10000).toNat / 1024) := Nat.mod_eq_of_lt (by omega)
      have hl : (0xdc00 + ((cp - 0x10000).toNat % 1024)) % 65536 =
          0xdc00 + ((cp - 0x10000).toNat % 1024) := Nat.mod_eq_of_lt (by omega)
      simp only [hh, hl, List.cons_append, List.nil_append]
      rw [wellFormedUtf16]
      rw [if_neg (by omega), if_neg (by omega), if_pos (by omega)]
      rw [wellFormedAfterHigh]
      rw [if_pos (by omega)]
    · rw [if_neg hbig]
      have h0 : (0 : Int) ≤ cp := hv.1
      have hlt : cp.toNat < 0x10000 := by omega
      have hmod : cp.toNat % 65536 = cp.toNat := Nat.mod_eq_of_lt (by omega)
      simp only [hmod, List.cons_append, List.nil_append]
      rw [wellFormedUtf16]
      rw [if_neg (by omega), if_neg (by omega), if_neg (by omega)]

theorem wellFormedUtf16_body (isLE : Bool) (badChar : Nat)
    (hb1 : badChar < 0x10000) (hb2 : ¬(0xd800 ≤ badChar ∧ badChar < 0xe000)) :
    ∀ src : List Nat,
      (∀ cp ∈ groupCps isLE src, ¬((0xd800 : Int) ≤ cp ∧ cp < 0xe000)) →
      wellFormedUtf16 (Utf32Decoder.body isLE badChar src).1 = true
  | b0 :: b1 :: b2 :: b3 :: rest, h => by
    have h1 : ¬((0xd800 : Int) ≤ cpOfBytes isLE b0 b1 b2 b3 ∧
        cpOfBytes isLE b0 b1 b2 b3 < 0xe000) :=
      h (cpOfBytes isLE b0 b1 b2 b3) (by simp [groupCps])
    have h2 : ∀ cp ∈ groupCps isLE rest, ¬((0xd800 : Int) ≤ cp ∧ cp < 0xe000) :=
      fun cp hc => h cp (by simp [groupCps, hc])
    have ih := wellFormedUtf16_body isLE badChar hb1 hb2 rest h2
    simp only [Utf32Decoder.body]
    rw [wellFormedUtf16_wcu_append _ _ _ hb1 hb2 h1]
    exact ih
  | [], _ => by simp [Utf32Decoder.body, wellFormedUtf16]
  | [b0], _ => by simp [Utf32Decoder.body, wellFormedUtf16]
  | [b0, b1], _ => by simp [Utf32Decoder.body, wellFormedUtf16]
  | [b0, b1, b2], _ => by simp [Utf32Decoder.body, wellFormedUtf16]

/-- C1 (code bug): chunk-invariance fails for the UTF-32LE decoder.  The
stream `41 00 00 00` decoded in one shot yields `"A"` (unit 0x41); split
as `[41]` then `[00 00 00]`, the second write drains the overflow buffer
to `[41 00 00 00]` but then decodes it indexing from `i = 3`, reading
`overflow[3..6]` (out-of-bounds gives 0), so it emits U+0000 instead. -/
theorem c1_utf32_chunked_overflow_bug :
    ((Utf32Decoder.write true 0xfffd [] [0x41]).1 ++
        (Utf32Decoder.write true 0xfffd
          (Utf32Decoder.write true 0xfffd [] [0x41]).2 [0x00, 0x00, 0x00]).1 =
      [0x00]) ∧
    (Utf32Decoder.write true 0xfffd [] [0x41, 0x00, 0x00, 0x00]).1 = [0x41] ∧
    ([0x00] : List Nat) ≠ [0x41] := by decide

/-- C3 (amended): for the UTF-32LE/BE decoder, a complete 4-byte group
whose signed 32-bit value is < 0 or > 0x10FFFF produces exactly the one
unit `badChar`; and a fresh write's output is well-formed UTF-16 whenever
no complete group's value is itself a surrogate code point (a group
encoding 0xD800..0xDFFF is emitted as that lone surrogate unit, so the
unconditional claim fails).  Values ≥ 0x10000 become valid surrogate
pairs, all other emitted values single 16-bit units. -/
theorem c3_utf32_decoder_replacement_wellformed (isLE : Bool)
    (badChar b0 b1 b2 b3 : Nat) (src : List Nat)
    (hb1 : badChar < 0x10000) (hb2 : ¬(0xd800 ≤ badChar ∧ badChar < 0xe000))
    (hcp : cpOfBytes isLE b0 b1 b2 b3 < 0 ∨ cpOfBytes isLE b0 b1 b2 b3 > 0x10ffff)
    (hsrc : ∀ cp ∈ groupCps isLE src, ¬((0xd800 : Int) ≤ cp ∧ cp < 0xe000)) :
    (Utf32Decoder.write isLE badChar [] [b0, b1, b2, b3]).1 = [badChar] ∧
    wellFormedUtf16 (Utf32Decoder.write isLE badChar [] src).1 = true := by
  constructor
  · simp only [Utf32Decoder.write, Utf32Decoder.body, writeCodepointUnits]
    rw [if_neg (by simp), if_neg (by simp)]
    rw [if_pos hcp]
    rw [if_neg (by omega)]
    simp [Int.toNat_natCast, Nat.mod_eq_of_lt (show badChar < 65536 by omega)]
  · by_cases hsrc0 : src.length = 0
    · simp [Utf32Decoder.write, hsrc0, wellFormedUtf16]
    · simp only [Utf32Decoder.write, if_neg hsrc0]
      rw [if_neg (by simp)]
      exact wellFormedUtf16_body isLE badChar hb1 hb2 src hsrc

/-- Counterexample for C3 as stated: the UTF-32LE group `00 D8 00 00`
(code point 0xD800, in range) is emitted as a lone high surrogate, so the
decoder's output is not always well-formed UTF-16. -/
theorem c3_counterexample :
    wellFormedUtf16 (Utf32Decoder.write true 0xfffd [] [0x00, 0xd8, 0x00, 0x00]).1 =
      false := by decide

/-- Witness for C3 at `badChar = 0xFFFD`, the invalid group `FF FF FF FF`
(signed value -1) and the source `41 00 00 00`. -/
theorem c3_witness :
    ((0xfffd : Nat) < 0x10000 ∧
      ¬(0xd800 ≤ (0xfffd : Nat) ∧ (0xfffd : Nat) < 0xe000) ∧
      (cpOfBytes true 0xff 0xff 0xff 0xff < 0 ∨
        cpOfBytes true 0xff 0xff 0xff 0xff > 0x10ffff) ∧
      (∀ cp ∈ groupCps true [0x41, 0x00, 0x00, 0x00],
        ¬((0xd800 : Int) ≤ cp ∧ cp < 0xe000))) ∧
    ((Utf32Decoder.write true 0xfffd [] [0xff, 0xff, 0xff, 0xff]).1 = [0xfffd] ∧
      wellFormedUtf16 (Utf32Decoder.write true 0xfffd [] [0x41, 0x00, 0x00, 0x00]).1 =
        true) :=
  ⟨⟨by decide, by decide, by decide, by decide⟩,
    c3_utf32_decoder_replacement_wellformed true 0xfffd 0xff 0xff 0xff 0xff
      [0x41, 0x00, 0x00, 0x00] (by decide) (by decide) (by decide) (by decide)⟩

namespace InternalEncoderCesu8

/-- The bytes `InternalEncoderCesu8.write` emits for one UTF-16 code unit
(internal-codecs file, lines 163-177); `charCode >>> 6` is `/ 64`,
`>>> 12` is `/ 4096`, `& 0x3F` is `% 64` and the `+`s are as in the
source. -/
def writeChar (charCode : Nat) : List Nat :=
  if charCode < 0x80 then [charCode]
  else if charCode < 0x800 then [0xc0 + charCode / 64, 0x80 + charCode % 64]
  else [0xe0 + charCode / 4096, 0x80 + charCode / 64 % 64, 0x80 + charCode % 64]

/-- `InternalEncoderCesu8.write` (internal-codecs file, lines 160-180):
stateless, each code unit encoded independently. -/
def write (str : List Nat) : List Nat := (str.map writeChar).flatten

end InternalEncoderCesu8

/-- The per-session state of `InternalDecoderCesu8` (internal-codecs file,
lines 189-194). -/
structure Cesu8DecState where
  acc : Nat
  contBytes : Nat
  accBytes : Nat
deriving DecidableEq

namespace InternalDecoderCesu8

/-- One iteration of the loop in `InternalDecoderCesu8.write`
(internal-codecs file, lines 205-251).  For byte values,
`(curByte & 0xC0) !== 0x80` is `curByte < 0x80 ∨ 0xC0 ≤ curByte`;
`curByte & 0x1F` is `% 32`, `& 0x0F` is `% 16`, and
`(acc << 6) | (curByte & 0x3F)` is `acc * 64 + curByte % 64`. -/
def step (repl : Nat) (st : Cesu8DecState) (curByte : Nat) :
    List Nat × Cesu8DecState :=
  if curByte < 0x80 ∨ 0xc0 ≤ curByte then
    let pre : List Nat := if st.contBytes > 0 then [repl] else []
    if curByte < 0x80 then (pre ++ [curByte], ⟨st.acc, 0, st.accBytes⟩)
    else if curByte < 0xe0 then (pre, ⟨curByte % 32, 1, 1⟩)
    else if curByte < 0xf0 then (pre, ⟨curByte % 16, 2, 1⟩)
    else (pre ++ [repl], ⟨st.acc, 0, st.accBytes⟩)
  else
    if st.contBytes > 0 then
      if st.contBytes - 1 = 0 then
        if st.accBytes + 1 = 2 ∧ st.acc * 64 + curByte % 64 < 0x80 ∧
            st.acc * 64 + curByte % 64 > 0 then
          ([repl], ⟨st.acc * 64 + curByte % 64, 0, st.accBytes + 1⟩)
        else if st.accBytes + 1 = 3 ∧ st.acc * 64 + curByte % 64 < 0x800 then
          ([repl], ⟨st.acc * 64 + curByte % 64, 0, st.accBytes + 1⟩)
        else
          ([st.acc * 64 + curByte % 64], ⟨st.acc * 64 + curByte % 64, 0, st.accBytes + 1⟩)
      else ([], ⟨st.acc * 64 + curByte % 64, st.contBytes - 1, st.accBytes + 1⟩)
    else ([repl], st)

/-- `InternalDecoderCesu8.write` (internal-codecs file, lines 200-256):
the emitted code units (the replacement string being the single unit
`repl`) and the state left behind. -/
def write (repl : Nat) : Cesu8DecState → List Nat → List Nat × Cesu8DecState
  | st, [] => ([], st)
  | st, b :: rest =>
    ((step repl st b).1 ++ (write repl (step repl st b).2 rest).1,
     (write repl (step repl st b).2 rest).2)

/-- `InternalDecoderCesu8.end` (internal-codecs file, lines 258-264): emits
one replacement for a pending sequence; the state fields are not touched. -/
def «end» (repl : Nat) (st : Cesu8DecState) : List Nat × Cesu8DecState :=
  (if st.contBytes > 0 then [repl] else [], st)

/-- `InternalDecoderCesu8.hasState` (internal-codecs file, lines 196-198). -/
def hasState (st : Cesu8DecState) : Bool := decide (st.contBytes > 0)

theorem write_append (repl : Nat) (xs ys : List Nat) :
    ∀ st : Cesu8DecState,
      write repl st (xs ++ ys) =
        ((write repl st xs).1 ++ (write repl (write repl st xs).2 ys).1,
         (write repl (write repl st xs).2 ys).2) := by
  induction xs with
  | nil => intro st; simp [write]
  | cons b rest ih => intro st; simp [write, ih]

theorem step_ascii (repl b : Nat) (st : Cesu8DecState) (hb : b < 0x80)
    (hst : st.contBytes = 0) :
    step repl st b = ([b], ⟨st.acc, 0, st.accBytes⟩) := by
  simp only [step]
  rw [if_pos (Or.inl hb), if_pos hb]
  simp [hst]

theorem step_lead2 (repl b : Nat) (st : Cesu8DecState) (hb : 0xc0 ≤ b ∧ b < 0xe0)
    (hst : st.contBytes = 0) :
    step repl st b = ([], ⟨b % 32, 1, 1⟩) := by
  simp only [step]
  rw [if_pos (Or.inr hb.1), if_neg (show ¬ b < 0x80 by omega), if_pos hb.2]
  simp [hst]

theorem step_lead3 (repl b : Nat) (st : Cesu8DecState) (hb : 0xe0 ≤ b ∧ b < 0xf0)
    (hst : st.contBytes = 0) :
    step repl st b = ([], ⟨b % 16, 2, 1⟩) := by
  simp only [step]
  rw [if_pos (Or.inr (by omega)), if_neg (show ¬ b < 0x80 by omega),
    if_neg (show ¬ b < 0xe0 by omega), if_pos hb.2]
  simp [hst]

theorem step_cont_mid (repl b acc accB : Nat) (hb : 0x80 ≤ b ∧ b < 0xc0) :
    step repl ⟨acc, 2, accB⟩ b = ([], ⟨acc * 64 + b % 64, 1, accB + 1⟩) := by
  simp only [step]
  rw [if_neg (by omega)]
  simp

theorem step_cont_fin (repl b acc accB : Nat) (hb : 0x80 ≤ b ∧ b < 0xc0) :
    step repl ⟨acc, 1, accB⟩ b =
      (if accB + 1 = 2 ∧ acc * 64 + b % 64 < 0x80 ∧ acc * 64 + b % 64 > 0 then [repl]
       else if accB + 1 = 3 ∧ acc * 64 + b % 64 < 0x800 then [repl]
       else [acc * 64 + b % 64],
       ⟨acc * 64 + b % 64, 0, accB + 1⟩) := by
  simp only [step]
  rw [if_neg (by omega)]
  simp only [show (0 : Nat) < 1 from by omega, if_pos, show (1 : Nat) - 1 = 0 from rfl]
  split_ifs <;> simp_all

theorem write_writeChar (repl u : Nat) (st : Cesu8DecState) (hu : u < 0x10000)
    (hst : st.contBytes = 0) :
    (write repl st (InternalEncoderCesu8.writeChar u)).1 = [u] ∧
    (write repl st (InternalEncoderCesu8.writeChar u)).2.contBytes = 0 := by
  unfold InternalEncoderCesu8.writeChar
  by_cases h1 : u < 0x80
  · rw [if_pos h1]
    simp [write, step_ascii repl u st h1 hst]
  · by_cases h2 : u < 0x800
    · rw [if_neg h1, if_pos h2]
      have e1 := step_lead2 repl (0xc0 + u / 64) st (by omega) hst
      have e2 := step_cont_fin repl (0x80 + u % 64) ((0xc0 + u / 64) % 32) 1 (by omega)
      have hacc : (0xc0 + u / 64) % 32 * 64 + (0x80 + u % 64) % 64 = u := by omega
      rw [hacc] at e2
      rw [if_neg (show ¬ (1 + 1 = 2 ∧ u < 0x80 ∧ u > 0) by omega)] at e2
      rw [if_neg (show ¬ (1 + 1 = 3 ∧ u < 0x800) by omega)] at e2
      simp [write, e1, e2]
    · rw [if_neg h1, if_neg h2]
      have e1 := step_lead3 repl (0xe0 + u / 4096) st (by omega) hst
      have e2 := step_cont_mid repl (0x80 + u / 64 % 64) ((0xe0 + u / 4096) % 16) 1
        (by omega)
      have e3 := step_cont_fin repl (0x80 + u % 64)
        ((0xe0 + u / 4096) % 16 * 64 + (0x80 + u / 64) % 64) 2 (by omega)
      have hacc : ((0xe0 + u / 4096) % 16 * 64 + (0x80 + u / 64) % 64) * 64 +
          (0x80 + u % 64) % 64 = u := by omega
      rw [hacc] at e3
      rw [if_neg (show ¬ (2 + 1 = 2 ∧ u < 0x80 ∧ u > 0) by omega)] at e3
      rw [if_neg (show ¬ (2 + 1 = 3 ∧ u < 0x800) by omega)] at e3
      simp [write, e1, e2, e3]

theorem decode_encode (repl : Nat) :
    ∀ (units : List Nat), (∀ u ∈ units, u < 0x10000) →
      ∀ st : Cesu8DecState, st.contBytes = 0 →
      (write repl st (InternalEncoderCesu8.write units)).1 = units ∧
      (write repl st (InternalEncoderCesu8.write units)).2.contBytes = 0 := by
  intro units
  induction units with
  | nil =>
    intro _ st hst
    simp [InternalEncoderCesu8.write, write, hst]
  | cons u rest ih =>
    intro hu st hst
    have hsplit : InternalEncoderCesu8.write (u :: rest) =
        InternalEncoderCesu8.writeChar u ++ InternalEncoderCesu8.write rest := by
      simp [InternalEncoderCesu8.write]
    rw [hsplit, write_append]
    obtain ⟨e1, e2⟩ := write_writeChar repl u st (hu u (by simp)) hst
    have h2 := ih (fun v hv => hu v (by simp [hv])) _ e2
    simp [e1, h2.1, h2.2]

end InternalDecoderCesu8

/-- C6: in the CESU-8 decoder, a completed 2-byte sequence with accumulated
value `0 < acc < 0x80` emits one replacement; `C0 80` (`acc = 0`) emits
U+0000; a completed 3-byte sequence with `acc < 0x800` emits one
replacement; every other completed sequence emits the code unit `acc`. -/
theorem c6_cesu8_completed_sequences (repl b1 b2 c1 c2 c3 : Nat)
    (hb1 : 0xc0 ≤ b1 ∧ b1 < 0xe0) (hb2 : 0x80 ≤ b2 ∧ b2 < 0xc0)
    (hc1 : 0xe0 ≤ c1 ∧ c1 < 0xf0) (hc2 : 0x80 ≤ c2 ∧ c2 < 0xc0)
    (hc3 : 0x80 ≤ c3 ∧ c3 < 0xc0) :
    (InternalDecoderCesu8.write repl ⟨0, 0, 0⟩ [b1, b2]).1 =
      (if 0 < b1 % 32 * 64 + b2 % 64 ∧ b1 % 32 * 64 + b2 % 64 < 0x80 then [repl]
       else [b1 % 32 * 64 + b2 % 64]) ∧
    (InternalDecoderCesu8.write repl ⟨0, 0, 0⟩ [0xc0, 0x80]).1 = [0x00] ∧
    (InternalDecoderCesu8.write repl ⟨0, 0, 0⟩ [c1, c2, c3]).1 =
      (if c1 % 16 * 64 * 64 + c2 % 64 * 64 + c3 % 64 < 0x800 then [repl]
       else [c1 % 16 * 64 * 64 + c2 % 64 * 64 + c3 % 64]) := by
  refine ⟨?_, ?_, ?_⟩
  · have e1 := InternalDecoderCesu8.step_lead2 repl b1 ⟨0, 0, 0⟩ hb1 rfl
    have e2 := InternalDecoderCesu8.step_cont_fin repl b2 (b1 % 32) 1 hb2
    rw [if_neg (show ¬ (1 + 1 = 3 ∧ b1 % 32 * 64 + b2 % 64 < 0x800) by omega)] at e2
    simp only [InternalDecoderCesu8.write, e1, e2]
    split_ifs <;> simp_all
  · have e1 := InternalDecoderCesu8.step_lead2 repl 0xc0 ⟨0, 0, 0⟩ (by omega) rfl
    have e2 := InternalDecoderCesu8.step_cont_fin repl 0x80 (0xc0 % 32) 1 (by omega)
    norm_num at e2
    simp [InternalDecoderCesu8.write, e1, e2]
  · have e1 := InternalDecoderCesu8.step_lead3 repl c1 ⟨0, 0, 0⟩ hc1 rfl
    have e2 := InternalDecoderCesu8.step_cont_mid repl c2 (c1 % 16) 1 hc2
    have e3 := InternalDecoderCesu8.step_cont_fin repl c3 (c1 % 16 * 64 + c2 % 64) 2 hc3
    rw [if_neg (show ¬ (2 + 1 = 2 ∧ (c1 % 16 * 64 + c2 % 64) * 64 + c3 % 64 < 0x80 ∧
        (c1 % 16 * 64 + c2 % 64) * 64 + c3 % 64 > 0) by omega)] at e3
    simp only [InternalDecoderCesu8.write, e1, e2, e3]
    have harr : (c1 % 16 * 64 + c2 % 64) * 64 + c3 % 64 =
        c1 % 16 * 64 * 64 + c2 % 64 * 64 + c3 % 64 := by ring
    split_ifs <;> simp_all

/-- Witness for C6 at `repl = 0xFFFD`, the 2-byte sequence `C1 81`
(overlong, acc = 0x41) and the 3-byte sequence `E0 A0 80` (acc = 0x800). -/
theorem c6_witness :
    ((0xc0 ≤ (0xc1 : Nat) ∧ (0xc1 : Nat) < 0xe0) ∧
      (0x80 ≤ (0x81 : Nat) ∧ (0x81 : Nat) < 0xc0) ∧
      (0xe0 ≤ (0xe0 : Nat) ∧ (0xe0 : Nat) < 0xf0) ∧
      (0x80 ≤ (0xa0 : Nat) ∧ (0xa0 : Nat) < 0xc0) ∧
      (0x80 ≤ (0x80 : Nat) ∧ (0x80 : Nat) < 0xc0)) ∧
    ((InternalDecoderCesu8.write 0xfffd ⟨0, 0, 0⟩ [0xc1, 0x81]).1 =
        (if 0 < 0xc1 % 32 * 64 + 0x81 % 64 ∧ 0xc1 % 32 * 64 + 0x81 % 64 < 0x80
         then [0xfffd] else [0xc1 % 32 * 64 + 0x81 % 64]) ∧
      (InternalDecoderCesu8.write 0xfffd ⟨0, 0, 0⟩ [0xc0, 0x80]).1 = [0x00] ∧
      (InternalDecoderCesu8.write 0xfffd ⟨0, 0, 0⟩ [0xe0, 0xa0, 0x80]).1 =
        (if 0xe0 % 16 * 64 * 64 + 0xa0 % 64 * 64 + 0x80 % 64 < 0x800 then [0xfffd]
         else [0xe0 % 16 * 64 * 64 + 0xa0 % 64 * 64 + 0x80 % 64])) :=
  ⟨⟨by decide, by decide, by decide, by decide, by decide⟩,
    c6_cesu8_completed_sequences 0xfffd 0xc1 0x81 0xe0 0xa0 0x80
      (by decide) (by decide) (by decide) (by decide) (by decide)⟩

/-- C10: a CESU-8 leading byte in 0xF0..0xFF seen while idle emits exactly
one replacement and leaves the decoder idle with its state unchanged (so
it consumes no following continuation bytes), and a continuation byte
0x80..0xBF seen while idle emits exactly one replacement. -/
theorem c10_cesu8_invalid_leaders (repl b c acc accBytes : Nat) (rest : List Nat)
    (hb : 0xf0 ≤ b ∧ b ≤ 0xff) (hc : 0x80 ≤ c ∧ c < 0xc0) :
    InternalDecoderCesu8.step repl ⟨acc, 0, accBytes⟩ b =
      ([repl], ⟨acc, 0, accBytes⟩) ∧
    InternalDecoderCesu8.step repl ⟨acc, 0, accBytes⟩ c =
      ([repl], ⟨acc, 0, accBytes⟩) ∧
    (InternalDecoderCesu8.write repl ⟨acc, 0, accBytes⟩ (b :: rest)).1 =
      repl :: (InternalDecoderCesu8.write repl ⟨acc, 0, accBytes⟩ rest).1 := by
  have h1 : InternalDecoderCesu8.step repl ⟨acc, 0, accBytes⟩ b =
      ([repl], ⟨acc, 0, accBytes⟩) := by
    simp only [InternalDecoderCesu8.step]
    rw [if_pos (Or.inr (by omega)), if_neg (show ¬ b < 0x80 by omega),
      if_neg (show ¬ b < 0xe0 by omega), if_neg (show ¬ b < 0xf0 by omega)]
    simp
  have h2 : InternalDecoderCesu8.step repl ⟨acc, 0, accBytes⟩ c =
      ([repl], ⟨acc, 0, accBytes⟩) := by
    simp only [InternalDecoderCesu8.step]
    rw [if_neg (show ¬ (c < 0x80 ∨ 0xc0 ≤ c) by omega)]
    simp
  exact ⟨h1, h2, by simp [InternalDecoderCesu8.write, h1]⟩

/-- Witness for C10 at `repl = 0xFFFD`, `b = 0xF0`, `c = 0x80`, idle state
`⟨0, 0, 0⟩` and the following byte list `[0x41]`. -/
theorem c10_witness :
    ((0xf0 ≤ (0xf0 : Nat) ∧ (0xf0 : Nat) ≤ 0xff) ∧
      (0x80 ≤ (0x80 : Nat) ∧ (0x80 : Nat) < 0xc0)) ∧
    (InternalDecoderCesu8.step 0xfffd ⟨0, 0, 0⟩ 0xf0 = ([0xfffd], ⟨0, 0, 0⟩) ∧
      InternalDecoderCesu8.step 0xfffd ⟨0, 0, 0⟩ 0x80 = ([0xfffd], ⟨0, 0, 0⟩) ∧
      (InternalDecoderCesu8.write 0xfffd ⟨0, 0, 0⟩ (0xf0 :: [0x41])).1 =
        0xfffd :: (InternalDecoderCesu8.write 0xfffd ⟨0, 0, 0⟩ [0x41]).1) :=
  ⟨⟨by decide, by decide⟩,
    c10_cesu8_invalid_leaders 0xfffd 0xf0 0x80 0 0 [0x41] (by decide) (by decide)⟩

/-- C5: CESU-8 encode then decode is the identity on every string of BMP
scalars, and a supplementary scalar `S` is encoded as exactly two 3-byte
sequences — one per UTF-16 surrogate half — which decode back to the
surrogate pair of `S`. -/
theorem c5_cesu8_roundtrip (repl S : Nat) (units : List Nat)
    (hunits : ∀ u ∈ units, u < 0x10000 ∧ ¬(0xd800 ≤ u ∧ u < 0xe000))
    (hS : 0x10000 ≤ S ∧ S ≤ 0x10ffff) :
    (InternalDecoderCesu8.write repl ⟨0, 0, 0⟩ (InternalEncoderCesu8.write units)).1 =
      units ∧
    (InternalDecoderCesu8.write repl ⟨0, 0, 0⟩
        (InternalEncoderCesu8.write units)).2.contBytes = 0 ∧
    InternalEncoderCesu8.write
        [0xd800 + (S - 0x10000) / 1024, 0xdc00 + (S - 0x10000) % 1024] =
      InternalEncoderCesu8.writeChar (0xd800 + (S - 0x10000) / 1024) ++
        InternalEncoderCesu8.writeChar (0xdc00 + (S - 0x10000) % 1024) ∧
    (InternalEncoderCesu8.writeChar (0xd800 + (S - 0x10000) / 1024)).length = 3 ∧
    (InternalEncoderCesu8.writeChar (0xdc00 + (S - 0x10000) % 1024)).length = 3 ∧
    (InternalDecoderCesu8.write repl ⟨0, 0, 0⟩
        (InternalEncoderCesu8.write
          [0xd800 + (S - 0x10000) / 1024, 0xdc00 + (S - 0x10000) % 1024])).1 =
      [0xd800 + (S - 0x10000) / 1024, 0xdc00 + (S - 0x10000) % 1024] := by
  have hmod : (S - 0x10000) % 1024 < 1024 := Nat.mod_lt _ (by norm_num)
  have hdiv : (S - 0x10000) / 1024 ≤ 1023 :=
    le_trans (Nat.div_le_div_right (show S - 0x10000 ≤ 0xfffff by omega)) (by norm_num)
  have hmain := InternalDecoderCesu8.decode_encode repl units
    (fun u hu => (hunits u hu).1) ⟨0, 0, 0⟩ rfl
  have hpair := InternalDecoderCesu8.decode_encode repl
    [0xd800 + (S - 0x10000) / 1024, 0xdc00 + (S - 0x10000) % 1024]
    (by intro u hu; simp at hu; rcases hu with h | h <;> omega) ⟨0, 0, 0⟩ rfl
  refine ⟨hmain.1, hmain.2, by simp [InternalEncoderCesu8.write], ?_, ?_, hpair.1⟩
  · rw [InternalEncoderCesu8.writeChar, if_neg (by omega), if_neg (by omega)]
    simp
  · rw [InternalEncoderCesu8.writeChar, if_neg (by omega), if_neg (by omega)]
    simp

/-- Witness for C5 at `repl = 0xFFFD`, `S = 0x1F4A9`, `units = [0x48]`. -/
theorem c5_witness :
    ((∀ u ∈ [(0x48 : Nat)], u < 0x10000 ∧ ¬(0xd800 ≤ u ∧ u < 0xe000)) ∧
      (0x10000 ≤ (0x1f4a9 : Nat) ∧ (0x1f4a9 : Nat) ≤ 0x10ffff)) ∧
    ((InternalDecoderCesu8.write 0xfffd ⟨0, 0, 0⟩
          (InternalEncoderCesu8.write [0x48])).1 = [0x48] ∧
      (InternalDecoderCesu8.write 0xfffd ⟨0, 0, 0⟩
          (InternalEncoderCesu8.write [0x48])).2.contBytes = 0 ∧
      InternalEncoderCesu8.write
          [0xd800 + (0x1f4a9 - 0x10000) / 1024, 0xdc00 + (0x1f4a9 - 0x10000) % 1024] =
        InternalEncoderCesu8.writeChar (0xd800 + (0x1f4a9 - 0x10000) / 1024) ++
          InternalEncoderCesu8.writeChar (0xdc00 + (0x1f4a9 - 0x10000) % 1024) ∧
      (InternalEncoderCesu8.writeChar (0xd800 + (0x1f4a9 - 0x10000) / 1024)).length = 3 ∧
      (InternalEncoderCesu8.writeChar (0xdc00 + (0x1f4a9 - 0x10000) % 1024)).length = 3 ∧
      (InternalDecoderCesu8.write 0xfffd ⟨0, 0, 0⟩
          (InternalEncoderCesu8.write
            [0xd800 + (0x1f4a9 - 0x10000) / 1024,
              0xdc00 + (0x1f4a9 - 0x10000) % 1024])).1 =
        [0xd800 + (0x1f4a9 - 0x10000) / 1024, 0xdc00 + (0x1f4a9 - 0x10000) % 1024]) :=
  ⟨⟨by decide, by decide⟩,
    c5_cesu8_roundtrip 0xfffd 0x1f4a9 [0x48] (by decide) (by decide)⟩

/-- Witness for C4 at `H = 0xD83D`, `c = 0x41` (not a surrogate),
`c2 = 0xDCA9` (a low surrogate). -/
theorem c4_witness :
    ((0xd800 ≤ (0xd83d : Nat) ∧ (0xd83d : Nat) < 0xdc00) ∧
      ((0xd800 ≤ (0x41 : Nat) ∧ (0x41 : Nat) < 0xdc00) ∨
        ¬(0xdc00 ≤ (0x41 : Nat) ∧ (0x41 : Nat) < 0xe000)) ∧
      (0xdc00 ≤ (0xdca9 : Nat) ∧ (0xdca9 : Nat) < 0xe000)) ∧
    (Utf32Encoder.step true 0xd83d 0x41 =
        (bytes32 true 0xd83d ++ (Utf32Encoder.step true 0 0x41).1,
          (Utf32Encoder.step true 0 0x41).2) ∧
      Utf32Encoder.step true 0xd83d 0xdca9 =
        (bytes32 true ((0xd83d - 0xd800) * 1024 + (0xdca9 - 0xdc00) + 0x10000), 0) ∧
      Utf32Encoder.«end» true 0xd83d = (bytes32 true 0xd83d, 0) ∧
      (bytes32 true 0xd83d).length = 4) :=
  ⟨⟨by decide, by decide, by decide⟩,
    c4_utf32_encoder_pending_surrogate true 0xd83d 0x41 0xdca9
      (by decide) (by decide) (by decide)⟩

namespace InternalEncoderBase64

/-- The characters Node's tolerant base64 decoder treats as data: the
base64 alphabet together with the url-safe variants; everything else
(including `=` padding) contributes no data. -/
def isBase64Char (c : Char) : Bool :=
  decide (('A' ≤ c ∧ c ≤ 'Z') ∨ ('a' ≤ c ∧ c ≤ 'z') ∨ ('0' ≤ c ∧ c ≤ '9') ∨
    c = '+' ∨ c = '/' ∨ c = '-' ∨ c = '_')

/-- Modelled from the spec: the byte count of the host's base64 decoder
(`Buffer.from(str, "base64")`), which is not part of this repository.  The
spec gives only that the host "tolerates short tails per its own rules";
every 4 data characters yield 3 bytes and a short tail of 2 or 3 data
characters yields 1 or 2 bytes, so the output never exceeds
`floor(3 * dataChars / 4)`; non-data characters are ignored.  This is the
largest output length any tolerant decoder produces. -/
def base64DecodedLen (str : List Char) : Nat := str.countP isBase64Char * 3 / 4

/-- The number of trailing `=` characters, so that
`str.length - trailingEquals str` is `str.search(/=*$/)` (the index where
the trailing run of `=` begins). -/
def trailingEquals (str : List Char) : Nat :=
  (str.reverse.takeWhile (fun c => c == '=')).length

/-- `InternalEncoderBase64.byteLength` (internal-codecs file, lines
113-125).  The source's `nonPaddedLength === -1` fallbacks are dead code:
`search(/=*$/)` always matches (at worst the empty string at the end). -/
def byteLength (str : List Char) : Nat :=
  (((str.take (str.length - str.length % 4)).length -
      trailingEquals (str.take (str.length - str.length % 4))) * 3 / 4) +
  (((str.drop (str.length - str.length % 4)).length -
      trailingEquals (str.drop (str.length - str.length % 4))) * 3 / 4)

/-- `InternalEncoderBase64.write` (internal-codecs file, lines 127-134):
the byte count of the decoded complete-quad prefix of `prevStr ++ str`,
and the new pending remainder. -/
def write (prevStr str0 : List Char) : Nat × List Char :=
  ((base64DecodedLen
      ((prevStr ++ str0).take ((prevStr ++ str0).length - (prevStr ++ str0).length % 4))),
   (prevStr ++ str0).drop ((prevStr ++ str0).length - (prevStr ++ str0).length % 4))

/-- `InternalEncoderBase64.end` (internal-codecs file, lines 136-138):
decodes the pending remainder; `prevStr` is not cleared. -/
def «end» (prevStr : List Char) : Nat × List Char := (base64DecodedLen prevStr, prevStr)

/-- `InternalEncoderBase64.hasState` (internal-codecs file, lines 109-111). -/
def hasState (prevStr : List Char) : Bool := decide (prevStr.length > 0)

theorem countP_add_trailingEquals_le (l : List Char) :
    l.countP isBase64Char + trailingEquals l ≤ l.length := by
  have hsplit := List.takeWhile_append_dropWhile (p := fun c => c == '=') (l := l.reverse)
  have hcp : l.countP isBase64Char = l.reverse.countP isBase64Char :=
    (List.countP_reverse (p := isBase64Char) l).symm
  have hzero : (l.reverse.takeWhile (fun c => c == '=')).countP isBase64Char = 0 := by
    rw [List.countP_eq_zero]
    intro a ha
    have he : (a == '=') = true :=
      List.mem_takeWhile_imp (p := fun c => c == '=') (l := l.reverse) ha
    have : a = '=' := by simpa using he
    subst this
    decide
  have hlen : l.length = (l.reverse.takeWhile (fun c => c == '=')).length +
      (l.reverse.dropWhile (fun c => c == '=')).length := by
    have := congrArg List.length hsplit
    simp only [List.length_append, List.length_reverse] at this
    omega
  have hbound : l.reverse.countP isBase64Char ≤
      (l.reverse.dropWhile (fun c => c == '=')).length := by
    conv_lhs => rw [← hsplit]
    rw [List.countP_append, hzero]
    simpa using List.countP_le_length isBase64Char
  unfold trailingEquals
  omega

end InternalEncoderBase64

/-- C9: for the base64 streaming encoder on a fresh session,
`byteLength str` is an upper bound on the total number of bytes produced
by `write str` followed by `end()`. -/
theorem c9_base64_byteLength_upper_bound (str : List Char) :
    (InternalEncoderBase64.write [] str).1 +
      (InternalEncoderBase64.«end» (InternalEncoderBase64.write [] str).2).1 ≤
    InternalEncoderBase64.byteLength str := by
  simp only [InternalEncoderBase64.write, InternalEncoderBase64.«end»,
    InternalEncoderBase64.byteLength, InternalEncoderBase64.base64DecodedLen,
    List.nil_append]
  have h1 := InternalEncoderBase64.countP_add_trailingEquals_le
    (str.take (str.length - str.length % 4))
  have h2 := InternalEncoderBase64.countP_add_trailingEquals_le
    (str.drop (str.length - str.length % 4))
  have m1 : (str.take (str.length - str.length % 4)).countP
        InternalEncoderBase64.isBase64Char * 3 / 4 ≤
      ((str.take (str.length - str.length % 4)).length -
        InternalEncoderBase64.trailingEquals
          (str.take (str.length - str.length % 4))) * 3 / 4 :=
    Nat.div_le_div_right (Nat.mul_le_mul_right 3 (by omega))
  have m2 : (str.drop (str.length - str.length % 4)).countP
        InternalEncoderBase64.isBase64Char * 3 / 4 ≤
      ((str.drop (str.length - str.length % 4)).length -
        InternalEncoderBase64.trailingEquals
          (str.drop (str.length - str.length % 4))) * 3 / 4 :=
    Nat.div_le_div_right (Nat.mul_le_mul_right 3 (by omega))
  omega

/-- The per-session state of `Utf32AutoEncoder` (utf32.js lines 258-282):
it delegates to a concrete UTF-32 encoder obtained from the host for
`options.defaultEncoding || "utf-32le"`, so its state is the delegate's
endianness and pending high surrogate. -/
structure Utf32AutoEncoderState where
  isLE : Bool
  highSurrogate : Nat
deriving DecidableEq

namespace Utf32AutoEncoder

/-- A fresh `Utf32AutoEncoder` session: delegate just constructed. -/
def init (isLE : Bool) : Utf32AutoEncoderState := ⟨isLE, 0⟩

/-- `Utf32AutoEncoder.hasState` (utf32.js lines 267-269): delegates. -/
def hasState (st : Utf32AutoEncoderState) : Bool :=
  Utf32Encoder.hasState st.highSurrogate

/-- `Utf32AutoEncoder.write` (utf32.js lines 275-277): delegates. -/
def write (st : Utf32AutoEncoderState) (str : List Nat) :
    List Nat × Utf32AutoEncoderState :=
  ((Utf32Encoder.write st.isLE st.highSurrogate str).1,
   ⟨st.isLE, (Utf32Encoder.write st.isLE st.highSurrogate str).2⟩)

/-- `Utf32AutoEncoder.end` (utf32.js lines 279-281): delegates. -/
def «end» (st : Utf32AutoEncoderState) : List Nat × Utf32AutoEncoderState :=
  ((Utf32Encoder.«end» st.isLE st.highSurrogate).1,
   ⟨st.isLE, (Utf32Encoder.«end» st.isLE st.highSurrogate).2⟩)

end Utf32AutoEncoder

/-- The groups of four consecutive bytes of a stream (the detector's `b`
accumulator filling up across chunk boundaries, utf32.js lines 352-356). -/
def groups4 : List Nat → List (Nat × Nat × Nat × Nat)
  | b0 :: b1 :: b2 :: b3 :: rest => (b0, b1, b2, b3) :: groups4 rest
  | _ => []

/-- `invalidBE` counted over a list of groups (utf32.js line 367). -/
def invalidBECount (gs : List (Nat × Nat × Nat × Nat)) : Int :=
  (gs.countP fun g => decide (g.1 ≠ 0 ∨ g.2.1 > 0x10) : Nat)

/-- `invalidLE` counted over a list of groups (utf32.js line 368). -/
def invalidLECount (gs : List (Nat × Nat × Nat × Nat)) : Int :=
  (gs.countP fun g => decide (g.2.2.2 ≠ 0 ∨ g.2.2.1 > 0x10) : Nat)

/-- `bmpCharsBE` counted over a list of groups (utf32.js line 370). -/
def bmpBECount (gs : List (Nat × Nat × Nat × Nat)) : Int :=
  (gs.countP fun g => decide (g.1 = 0 ∧ g.2.1 = 0 ∧ (g.2.2.1 ≠ 0 ∨ g.2.2.2 ≠ 0)) : Nat)

/-- `bmpCharsLE` counted over a list of groups (utf32.js line 371). -/
def bmpLECount (gs : List (Nat × Nat × Nat × Nat)) : Int :=
  (gs.countP fun g => decide ((g.1 ≠ 0 ∨ g.2.1 ≠ 0) ∧ g.2.2.1 = 0 ∧ g.2.2.2 = 0) : Nat)

/-- The counting loop of `detectEncoding` (utf32.js lines 352-381) on the
flattened stream: the `b` accumulator consumes four bytes at a time; a
group is only processed while `charsProcessed < 100` (the source
increments and then breaks once it reaches 100).  Counters in the order
`(invalidBE, invalidLE, bmpCharsBE, bmpCharsLE)`. -/
def detectLoop : List Nat → Nat → Int → Int → Int → Int → Int × Int × Int × Int
  | b0 :: b1 :: b2 :: b3 :: rest, charsProcessed, invalidBE, invalidLE, bmpCharsBE, bmpCharsLE =>
    if charsProcessed < 100 then
      detectLoop rest (charsProcessed + 1)
        (if b0 ≠ 0 ∨ b1 > 0x10 then invalidBE + 1 else invalidBE)
        (if b3 ≠ 0 ∨ b2 > 0x10 then invalidLE + 1 else invalidLE)
        (if b0 = 0 ∧ b1 = 0 ∧ (b2 ≠ 0 ∨ b3 ≠ 0) then bmpCharsBE + 1 else bmpCharsBE)
        (if (b0 ≠ 0 ∨ b1 ≠ 0) ∧ b2 = 0 ∧ b3 = 0 then bmpCharsLE + 1 else bmpCharsLE)
    else (invalidBE, invalidLE, bmpCharsBE, bmpCharsLE)
  | _, _, invalidBE, invalidLE, bmpCharsBE, bmpCharsLE =>
    (invalidBE, invalidLE, bmpCharsBE, bmpCharsLE)

/-- The BOM check of `detectEncoding` (utf32.js lines 357-365): it fires
exactly when the first complete group of the flattened stream is
`FF FE 00 00` or `00 00 FE FF`. -/
def bomEncoding : List Nat → Option String
  | 0xff :: 0xfe :: 0x00 :: 0x00 :: _ => some "utf-32le"
  | 0x00 :: 0x00 :: 0xfe :: 0xff :: _ => some "utf-32be"
  | _ => none

/-- `detectEncoding` (utf32.js lines 344-389).  The double loop over
`bufs` then each buffer's bytes visits the bytes of `bufs.flatten` in
order, so it is modelled on the flattened stream. -/
def detectEncoding (bufs : List (List Nat)) (defaultEncoding : Option String) : String :=
  match bomEncoding bufs.flatten with
  | some enc => enc
  | none =>
    match detectLoop bufs.flatten 0 0 0 0 0 with
    | (invalidBE, invalidLE, bmpCharsBE, bmpCharsLE) =>
      if bmpCharsBE - invalidBE > bmpCharsLE - invalidLE then "utf-32be"
      else if bmpCharsBE - invalidBE < bmpCharsLE - invalidLE then "utf-32le"
      else defaultEncoding.getD "utf-32le"

/-- The endianness of the decoder the host returns for an encoding name
(`iconv.getDecoder`, utf32.js lines 310-311): `"utf-32be"` is big-endian,
everything else in the modelled host is the default little-endian. -/
def isLEName (s : String) : Bool := s != "utf-32be"

/-- The per-session state of `Utf32AutoDecoder` (utf32.js lines 286-293):
the chosen delegate (endianness and its overflow buffer) once one exists,
and the accumulated initial buffers with their total length. -/
structure Utf32AutoDecoderState where
  dec : Option (Bool × List Nat)
  initialBufs : List (List Nat)
  initialBufsLen : Nat

namespace Utf32AutoDecoder

/-- A fresh `Utf32AutoDecoder` session (utf32.js lines 287-292). -/
def init : Utf32AutoDecoderState := ⟨none, [], 0⟩

/-- `Utf32AutoDecoder.hasState` (utf32.js lines 295-297). -/
def hasState (st : Utf32AutoDecoderState) : Bool :=
  decide (st.initialBufsLen ≠ 0) ||
    (match st.dec with
     | none => false
     | some p => Utf32Decoder.hasState p.2)

/-- Replaying the accumulated buffers through the freshly created delegate
(utf32.js lines 313-315 and 329-331). -/
def replay (isLE : Bool) (badChar : Nat) : List Nat → List (List Nat) → List Nat × List Nat
  | overflow, [] => ([], overflow)
  | overflow, b :: rest =>
    ((Utf32Decoder.write isLE badChar overflow b).1 ++
        (replay isLE badChar (Utf32Decoder.write isLE badChar overflow b).2 rest).1,
     (replay isLE badChar (Utf32Decoder.write isLE badChar overflow b).2 rest).2)

/-- `Utf32AutoDecoder.write` (utf32.js lines 299-322). -/
def write (badChar : Nat) (defaultEncoding : Option String)
    (st : Utf32AutoDecoderState) (buf : List Nat) :
    List Nat × Utf32AutoDecoderState :=
  match st.dec with
  | none =>
    if st.initialBufsLen + buf.length < 32 then
      ([], ⟨none, st.initialBufs ++ [buf], st.initialBufsLen + buf.length⟩)
    else
      ((replay (isLEName (detectEncoding (st.initialBufs ++ [buf]) defaultEncoding))
          badChar [] (st.initialBufs ++ [buf])).1,
       ⟨some (isLEName (detectEncoding (st.initialBufs ++ [buf]) defaultEncoding),
          (replay (isLEName (detectEncoding (st.initialBufs ++ [buf]) defaultEncoding))
            badChar [] (st.initialBufs ++ [buf])).2),
        [], 0⟩)
  | some p =>
    ((Utf32Decoder.write p.1 badChar p.2 buf).1,
     ⟨some (p.1, (Utf32Decoder.write p.1 badChar p.2 buf).2),
      st.initialBufs, st.initialBufsLen⟩)

/-- `Utf32AutoDecoder.end` (utf32.js lines 324-341): with no delegate yet,
detect, replay, call the delegate's `end` (which clears its overflow and
returns nothing) and clear the initial buffers; otherwise delegate. -/
def «end» (badChar : Nat) (defaultEncoding : Option String)
    (st : Utf32AutoDecoderState) : List Nat × Utf32AutoDecoderState :=
  match st.dec with
  | none =>
    ((replay (isLEName (detectEncoding st.initialBufs defaultEncoding))
        badChar [] st.initialBufs).1,
     ⟨some (isLEName (detectEncoding st.initialBufs defaultEncoding), []), [], 0⟩)
  | some p => ([], ⟨some (p.1, []), st.initialBufs, st.initialBufsLen⟩)

/-- A whole sequence of `write` calls, threading the state. -/
def runWrites (badChar : Nat) (defaultEncoding : Option String) :
    Utf32AutoDecoderState → List (List Nat) → Utf32AutoDecoderState
  | st, [] => st
  | st, b :: rest =>
    runWrites badChar defaultEncoding (write badChar defaultEncoding st b).2 rest

theorem runWrites_inv (badChar : Nat) (defaultEncoding : Option String) :
    ∀ (chunks : List (List Nat)) (st : Utf32AutoDecoderState),
      (st.dec ≠ none → st.initialBufsLen = 0) →
      ((runWrites badChar defaultEncoding st chunks).dec ≠ none →
        (runWrites badChar defaultEncoding st chunks).initialBufsLen = 0)
  | [], st => fun h => h
  | b :: rest, st => by
    intro h
    have hnext : ((write badChar defaultEncoding st b).2.dec ≠ none →
        (write badChar defaultEncoding st b).2.initialBufsLen = 0) := by
      unfold write
      match hd : st.dec with
      | none =>
        by_cases hlen : st.initialBufsLen + b.length < 32 <;>
          simp [hd, hlen]
      | some p =>
        simp [hd]
        exact h (by simp [hd])
    exact runWrites_inv badChar defaultEncoding rest _ hnext

end Utf32AutoDecoder

/-- C2 (amended): `hasState` is false immediately after construction for
the CESU-8 decoder, the base64 streaming encoder, the UTF-32
encoder/decoder and the UTF-32 auto encoder/decoder; after `end()` the
UTF-32 encoder, UTF-32 decoder and both UTF-32 auto sessions have
`hasState` false; but the CESU-8 decoder's and the base64 encoder's
`end()` leave their partial-sequence state untouched, so for those two
`hasState` after `end()` equals `hasState` before it (and stays true when
a partial sequence was pending — the original claim fails there). -/
theorem c2_hasState_construction_and_end (repl badChar h : Nat) (isLE : Bool)
    (ov : List Nat) (prevStr : List Char) (st : Cesu8DecState)
    (ae : Utf32AutoEncoderState) (dflt : Option String)
    (chunks : List (List Nat)) :
    InternalDecoderCesu8.hasState ⟨0, 0, 0⟩ = false ∧
    InternalEncoderBase64.hasState [] = false ∧
    Utf32Encoder.hasState 0 = false ∧
    Utf32Decoder.hasState [] = false ∧
    Utf32AutoEncoder.hasState (Utf32AutoEncoder.init isLE) = false ∧
    Utf32AutoDecoder.hasState Utf32AutoDecoder.init = false ∧
    Utf32Encoder.hasState (Utf32Encoder.«end» isLE h).2 = false ∧
    Utf32Decoder.hasState (Utf32Decoder.«end» ov).2 = false ∧
    Utf32AutoEncoder.hasState (Utf32AutoEncoder.«end» ae).2 = false ∧
    Utf32AutoDecoder.hasState
      (Utf32AutoDecoder.«end» badChar dflt
        (Utf32AutoDecoder.runWrites badChar dflt Utf32AutoDecoder.init chunks)).2 =
      false ∧
    (InternalDecoderCesu8.«end» repl st).2 = st ∧
    (InternalEncoderBase64.«end» prevStr).2 = prevStr := by
  refine ⟨rfl, rfl, rfl, rfl, rfl, rfl, ?_, rfl, ?_, ?_, rfl, rfl⟩
  · simp only [Utf32Encoder.«end»]
    by_cases hz : h ≠ 0 <;> simp [hz, Utf32Encoder.hasState]
  · simp only [Utf32AutoEncoder.«end», Utf32AutoEncoder.hasState, Utf32Encoder.«end»]
    by_cases hz : ae.highSurrogate ≠ 0 <;> simp [hz, Utf32Encoder.hasState]
  · have hinv := Utf32AutoDecoder.runWrites_inv badChar dflt chunks
      Utf32AutoDecoder.init (by intro hcon; simp [Utf32AutoDecoder.init] at hcon)
    set stw := Utf32AutoDecoder.runWrites badChar dflt Utf32AutoDecoder.init chunks
    unfold Utf32AutoDecoder.«end»
    match hd : stw.dec with
    | none => simp [Utf32AutoDecoder.hasState, Utf32Decoder.hasState]
    | some p =>
      have hlen : stw.initialBufsLen = 0 := hinv (by simp [hd])
      simp [hd, Utf32AutoDecoder.hasState, Utf32Decoder.hasState, hlen]

/-- Counterexample for C2 as stated: after writing the single character
`Q` to a fresh base64 streaming encoder the pending prefix is `"Q"`;
`end()` does not clear it, so `hasState` is still true after `end()`
returns. -/
theorem c2_counterexample :
    InternalEncoderBase64.hasState
      (InternalEncoderBase64.«end» (InternalEncoderBase64.write [] ['Q']).2).2 =
      true := by decide

theorem detectLoop_eq :
    ∀ (bs : List Nat) (n : Nat) (a b c d : Int),
      detectLoop bs n a b c d =
        (a + invalidBECount ((groups4 bs).take (100 - n)),
         b + invalidLECount ((groups4 bs).take (100 - n)),
         c + bmpBECount ((groups4 bs).take (100 - n)),
         d + bmpLECount ((groups4 bs).take (100 - n)))
  | b0 :: b1 :: b2 :: b3 :: rest, n, a, b, c, d => by
    by_cases hn : n < 100
    · have ih := detectLoop_eq rest (n + 1)
        (if b0 ≠ 0 ∨ b1 > 0x10 then a + 1 else a)
        (if b3 ≠ 0 ∨ b2 > 0x10 then b + 1 else b)
        (if b0 = 0 ∧ b1 = 0 ∧ (b2 ≠ 0 ∨ b3 ≠ 0) then c + 1 else c)
        (if (b0 ≠ 0 ∨ b1 ≠ 0) ∧ b2 = 0 ∧ b3 = 0 then d + 1 else d)
      rw [detectLoop, if_pos hn, ih]
      have h100 : 100 - n = (100 - (n + 1)) + 1 := by omega
      rw [groups4, h100, List.take_succ_cons]
      simp only [invalidBECount, invalidLECount, bmpBECount, bmpLECount,
        List.countP_cons]
      refine Prod.ext ?_ (Prod.ext ?_ (Prod.ext ?_ ?_)) <;>
        simp only [] <;> split_ifs <;> simp_all <;> omega
    · rw [detectLoop, if_neg hn]
      have h0 : 100 - n = 0 := by omega
      rw [h0]
      simp [invalidBECount, invalidLECount, bmpBECount, bmpLECount]
  | [], n, a, b, c, d => by
    simp [detectLoop, groups4, invalidBECount, invalidLECount, bmpBECount, bmpLECount]
  | [x], n, a, b, c, d => by
    simp [detectLoop, groups4, invalidBECount, invalidLECount, bmpBECount, bmpLECount]
  | [x, y], n, a, b, c, d => by
    simp [detectLoop, groups4, invalidBECount, invalidLECount, bmpBECount, bmpLECount]
  | [x, y, z], n, a, b, c, d => by
    simp [detectLoop, groups4, invalidBECount, invalidLECount, bmpBECount, bmpLECount]

/-- C7: the UTF-32 auto decoder's endianness detector returns
`"utf-32le"` when the very first 4-byte group of the (chunk-spanning)
stream is `FF FE 00 00` and `"utf-32be"` when it is `00 00 FE FF`;
otherwise, over at most the first 100 four-byte groups, it returns
`"utf-32be"` exactly when `bmpCharsBE - invalidBE > bmpCharsLE -
invalidLE`, `"utf-32le"` when the LE score is strictly greater, and on a
tie the caller-supplied `defaultEncoding` or `"utf-32le"`. -/
theorem c7_detectEncoding_decision (tailLE tailBE : List Nat)
    (bufsLE bufsBE bufs : List (List Nat)) (d1 d2 d3 : Option String)
    (hLE : bufsLE.flatten = 0xff :: 0xfe :: 0x00 :: 0x00 :: tailLE)
    (hBE : bufsBE.flatten = 0x00 :: 0x00 :: 0xfe :: 0xff :: tailBE)
    (hnb : bomEncoding bufs.flatten = none) :
    detectEncoding bufsLE d1 = "utf-32le" ∧
    detectEncoding bufsBE d2 = "utf-32be" ∧
    detectEncoding bufs d3 =
      (if bmpBECount ((groups4 bufs.flatten).take 100) -
            invalidBECount ((groups4 bufs.flatten).take 100) >
          bmpLECount ((groups4 bufs.flatten).take 100) -
            invalidLECount ((groups4 bufs.flatten).take 100) then "utf-32be"
       else if bmpBECount ((groups4 bufs.flatten).take 100) -
            invalidBECount ((groups4 bufs.flatten).take 100) <
          bmpLECount ((groups4 bufs.flatten).take 100) -
            invalidLECount ((groups4 bufs.flatten).take 100) then "utf-32le"
       else d3.getD "utf-32le") := by
  refine ⟨?_, ?_, ?_⟩
  · rw [detectEncoding, hLE]
    rfl
  · rw [detectEncoding, hBE]
    rfl
  · rw [detectEncoding, hnb]
    rw [detectLoop_eq bufs.flatten 0 0 0 0 0]
    norm_num

/-- Witness for C7 at `bufsLE = [[FF FE 00 00]]`, `bufsBE = [[00 00 FE FF]]`
and `bufs = [[41 00 00 00]]` with no default encoding supplied. -/
theorem c7_witness :
    (([[0xff, 0xfe, 0x00, 0x00]] : List (List Nat)).flatten =
        0xff :: 0xfe :: 0x00 :: 0x00 :: ([] : List Nat) ∧
      ([[0x00, 0x00, 0xfe, 0xff]] : List (List Nat)).flatten =
        0x00 :: 0x00 :: 0xfe :: 0xff :: ([] : List Nat) ∧
      bomEncoding ([[0x41, 0x00, 0x00, 0x00]] : List (List Nat)).flatten = none) ∧
    (detectEncoding [[0xff, 0xfe, 0x00, 0x00]] none = "utf-32le" ∧
      detectEncoding [[0x00, 0x00, 0xfe, 0xff]] none = "utf-32be" ∧
      detectEncoding [[0x41, 0x00, 0x00, 0x00]] none =
        (if bmpBECount ((groups4 ([[0x41, 0x00, 0x00, 0x00]] :
                List (List Nat)).flatten).take 100) -
              invalidBECount ((groups4 ([[0x41, 0x00, 0x00, 0x00]] :
                List (List Nat)).flatten).take 100) >
            bmpLECount ((groups4 ([[0x41, 0x00, 0x00, 0x00]] :
                List (List Nat)).flatten).take 100) -
              invalidLECount ((groups4 ([[0x41, 0x00, 0x00, 0x00]] :
                List (List Nat)).flatten).take 100) then "utf-32be"
         else if bmpBECount ((groups4 ([[0x41, 0x00, 0x00, 0x00]] :
                List (List Nat)).flatten).take 100) -
              invalidBECount ((groups4 ([[0x41, 0x00, 0x00, 0x00]] :
                List (List Nat)).flatten).take 100) <
            bmpLECount ((groups4 ([[0x41, 0x00, 0x00, 0x00]] :
                List (List Nat)).flatten).take 100) -
              invalidLECount ((groups4 ([[0x41, 0x00, 0x00, 0x00]] :
                List (List Nat)).flatten).take 100) then "utf-32le"
         else (none : Option String).getD "utf-32le")) :=
  ⟨⟨by decide, by decide, by decide⟩,
    c7_detectEncoding_decision [] [] [[0xff, 0xfe, 0x00, 0x00]]
      [[0x00, 0x00, 0xfe, 0xff]] [[0x41, 0x00, 0x00, 0x00]] none none none
      (by decide) (by decide) (by decide)⟩
